import Mathlib

/-!
Shallow embedding of the nrn-brainstem smart contracts:
the Neuron token ledger (nrn.sol) and the Stimulus enrollment/reward
state machine (stimulus.sol).

Solidity 0.4 `uint256` arithmetic wraps modulo 2^256, so additions and
subtractions on stored quantities are modelled with explicit `% 2 ^ 256`.
A `require` failure reverts the whole call with no state change; every
mutating operation is therefore modelled as returning `Option` — `none`
is a revert, and the caller keeps the unchanged pre-state.
The ambient `msg.sender` becomes an explicit `sender` argument, and
`address(this)` becomes the `self` field of the contract state.
Event emission (`emit`) appends to an explicit `log` field.
-/

/-- Account / contract addresses (`address` in Solidity). -/
abbrev Addr := Nat

/-- The modulus of EVM 256-bit words. -/
def U256 : Nat := 2 ^ 256

/-- Wrapping `uint256` addition: `a + b` in Solidity 0.4. -/
def add256 (a b : Nat) : Nat := (a + b) % U256

/-- Wrapping `uint256` subtraction: `a - b` in Solidity 0.4 (for `b < 2^256`). -/
def sub256 (a b : Nat) : Nat := (a + U256 - b) % U256

/-- Point update of a two-level mapping (`mapping(address => mapping(address => uint256))`). -/
def update2 (m : Addr → Addr → Nat) (o s : Addr) (v : Nat) : Addr → Addr → Nat :=
  Function.update m o (Function.update (m o) s v)

/-- The two ERC20 events emitted by the Neuron contract. -/
inductive LedgerEvent where
  | Transfer (fromAddress toAddress : Addr) (value : Nat)
  | Approval (owner spender : Addr) (value : Nat)
deriving DecidableEq

/-- State of one deployed `Neuron` contract instance (nrn.sol).
`self` models `address(this)`; `log` models the emitted event stream. -/
@[ext]
structure Neuron where
  self : Addr
  neuronMaster : Addr
  name : String
  symbol : String
  totalSupply : Nat
  ledger : Addr → Nat
  allowances : Addr → Addr → Nat
  reclamationWhitelist : Addr → Bool
  log : List LedgerEvent

namespace Neuron

/-- The `Neuron` constructor: the deployer becomes master and receives the
entire initial supply. -/
def construct (sender : Addr) (self : Addr) (name symbol : String)
    (initialSupply : Nat) : Neuron :=
  { self := self
    neuronMaster := sender
    name := name
    symbol := symbol
    totalSupply := initialSupply
    ledger := Function.update (fun _ => 0) sender initialSupply
    allowances := fun _ _ => 0
    reclamationWhitelist := fun _ => false
    log := [] }

/-- `hasMastery(entity)`. -/
def hasMastery (s : Neuron) (entity : Addr) : Bool := entity == s.neuronMaster

/-- `changeMastery(newNeuronMaster)`; requires mastery. -/
def changeMastery (s : Neuron) (sender newNeuronMaster : Addr) : Option Neuron :=
  if s.hasMastery sender then some { s with neuronMaster := newNeuronMaster } else none

/-- `changeName(newName)`; requires mastery. -/
def changeName (s : Neuron) (sender : Addr) (newName : String) : Option Neuron :=
  if s.hasMastery sender then some { s with name := newName } else none

/-- `changeSymbol(newSymbol)`; requires mastery. -/
def changeSymbol (s : Neuron) (sender : Addr) (newSymbol : String) : Option Neuron :=
  if s.hasMastery sender then some { s with symbol := newSymbol } else none

/-- `balanceOf(entity)`: pure lookup in the ledger mapping (default 0). -/
def balanceOf (s : Neuron) (entity : Addr) : Nat := s.ledger entity

/-- `increaseSupply(amount)`: requires `msg.sender == address(this)` or mastery,
and `totalSupply + amount` (wrapping) to strictly exceed `totalSupply`. -/
def increaseSupply (s : Neuron) (sender : Addr) (amount : Nat) : Option Neuron :=
  if sender == s.self || s.hasMastery sender then
    let newSupply := add256 s.totalSupply amount
    if s.totalSupply < newSupply then
      some { s with
        totalSupply := newSupply
        ledger := Function.update s.ledger sender (add256 (s.ledger sender) amount) }
    else none
  else none

/-- `decreaseSupply(amount)`: requires `msg.sender == address(this)` or mastery,
a sufficient caller balance, and the new supply to be strictly below the old
(the `require(newSupply >= 0)` of the source is vacuous on `uint256`). -/
def decreaseSupply (s : Neuron) (sender : Addr) (amount : Nat) : Option Neuron :=
  if sender == s.self || s.hasMastery sender then
    if amount ≤ s.ledger sender then
      let newSupply := sub256 s.totalSupply amount
      if 0 ≤ newSupply then
        if newSupply < s.totalSupply then
          some { s with
            ledger := Function.update s.ledger sender (sub256 (s.ledger sender) amount)
            totalSupply := newSupply }
        else none
      else none
    else none
  else none

/-- `approve(entity, allowance)`: requires the new or the existing allowance to
be zero (the `require(allowance >= 0)` of the source is vacuous on `uint256`). -/
def approve (s : Neuron) (sender entity : Addr) (allowanceAmount : Nat) : Option Neuron :=
  if 0 ≤ allowanceAmount then
    if allowanceAmount == 0 || s.allowances sender entity == 0 then
      some { s with
        allowances := update2 s.allowances sender entity allowanceAmount
        log := s.log ++ [LedgerEvent.Approval sender entity allowanceAmount] }
    else none
  else none

/-- `allowance(owner, proxy)`: pure lookup. -/
def allowance (s : Neuron) (owner proxy : Addr) : Nat := s.allowances owner proxy

/-- `_changeHands(fromAddress, toAddress, amount)`: the internal transfer
primitive. Requires a sufficient source balance and either `msg.sender`
to be the source or a sufficient allowance; decrements the allowance
exactly when `msg.sender` is not the source. -/
def changeHands (s : Neuron) (sender fromAddress toAddress : Addr) (amount : Nat) :
    Option Neuron :=
  if amount ≤ s.ledger fromAddress then
    if sender == fromAddress || amount ≤ s.allowances fromAddress sender then
      let l1 := Function.update s.ledger toAddress (add256 (s.ledger toAddress) amount)
      let l2 := Function.update l1 fromAddress (sub256 (l1 fromAddress) amount)
      let al := if sender != fromAddress then
          update2 s.allowances fromAddress sender
            (sub256 (s.allowances fromAddress sender) amount)
        else s.allowances
      some { s with
        ledger := l2
        allowances := al
        log := s.log ++ [LedgerEvent.Transfer fromAddress toAddress amount] }
    else none
  else none

/-- `transfer(_to, _value)`: `_changeHands(msg.sender, _to, _value)`. -/
def transfer (s : Neuron) (sender toAddress : Addr) (value : Nat) : Option Neuron :=
  changeHands s sender sender toAddress value

/-- `transferFrom(_from, _to, _value)`: `_changeHands(_from, _to, _value)`. -/
def transferFrom (s : Neuron) (sender fromAddress toAddress : Addr) (value : Nat) :
    Option Neuron :=
  changeHands s sender fromAddress toAddress value

/-- `whitelistContractForReclamation(oldNeuron)`; requires mastery. -/
def whitelistContractForReclamation (s : Neuron) (sender : Addr) (oldNeuron : Addr) :
    Option Neuron :=
  if s.hasMastery sender then
    some { s with reclamationWhitelist := Function.update s.reclamationWhitelist oldNeuron true }
  else none

/-- `reclaimBalanceFrom(oldNeuron, account, amount)`: requires the old contract
to be whitelisted; pulls `amount` from `account` to this contract on the old
ledger, then mints `amount` to itself via `this.increaseSupply` and forwards it
to `account` via `this.transfer` (in both of those external calls `msg.sender`
is this contract's own address). Any failing sub-call reverts the whole
operation, leaving both ledgers unchanged. Returns the updated
(new ledger, old ledger) pair. The source imposes no restriction on the
outer `msg.sender`, which it never reads. -/
def reclaimBalanceFrom (s old : Neuron) (account : Addr) (amount : Nat) :
    Option (Neuron × Neuron) :=
  if s.reclamationWhitelist old.self then
    match transferFrom old s.self account s.self amount with
    | none => none
    | some old1 =>
      match increaseSupply s s.self amount with
      | none => none
      | some s1 =>
        match transfer s1 s.self account amount with
        | none => none
        | some s2 => some (s2, old1)
  else none

end Neuron

/-- The two events emitted by the Stimulus contract. -/
inductive StimulusEvent where
  | StimulusRequest (candidate : Addr) (stimulusType : Nat) (stimulusId : Nat)
  | StimulusResponse (candidate : Addr) (stimulusType : Nat) (stimulusId : Nat) (accepted : Bool)
deriving DecidableEq

/-- State of one deployed `Stimulus` contract instance (stimulus.sol).
`self` models `address(this)` — it is the `msg.sender` of the reward
transfers this contract makes on the token ledger. The referenced token
ledger (`nrn`) is passed explicitly to the operations that use it.
Participant status codes: 0 unset, 1 pending, 2 rejected, 3 accepted. -/
@[ext]
structure Stimulus where
  self : Addr
  principalInvestigator : Addr
  rewards : Fin 5 → Nat
  participants : Addr → Nat
  log : List StimulusEvent

namespace Stimulus

/-- The `Stimulus` constructor: the deployer becomes the principal
investigator; the five reward amounts are copied in. -/
def construct (sender : Addr) (self : Addr) (rewards : Fin 5 → Nat) : Stimulus :=
  { self := self
    principalInvestigator := sender
    rewards := rewards
    participants := fun _ => 0
    log := [] }

/-- `status(participant)`: pure lookup (default 0). -/
def status (st : Stimulus) (participant : Addr) : Nat := st.participants participant

/-- `enroll(stimulusId)`: requires the caller not to be rejected; sets the
caller's status to pending (1) and emits a `StimulusRequest` of type 0. -/
def enroll (st : Stimulus) (sender : Addr) (stimulusId : Nat) : Option Stimulus :=
  if st.participants sender ≠ 2 then
    some { st with
      participants := Function.update st.participants sender 1
      log := st.log ++ [StimulusEvent.StimulusRequest sender 0 stimulusId] }
  else none

/-- `submit(stimulusType, stimulusId)`: requires the caller to be accepted (3)
and `0 < stimulusType < 5`; emits a `StimulusRequest`; mutates nothing else. -/
def submit (st : Stimulus) (sender : Addr) (stimulusType stimulusId : Nat) :
    Option Stimulus :=
  if st.participants sender = 3 then
    if 0 < stimulusType then
      if stimulusType < 5 then
        some { st with
          log := st.log ++ [StimulusEvent.StimulusRequest sender stimulusType stimulusId] }
      else none
    else none
  else none

/-- `respondToEnrollment(candidate, stimulusId, accept)`: requires the caller
to be the PI. On accept, requires the ledger transfer of `rewards[0]` from the
PI to the candidate (made with this contract as `msg.sender`) to succeed and
sets the candidate's status to accepted (3); on reject, sets it to rejected (2)
unconditionally. Emits a `StimulusResponse` of type 0. Returns the updated
(stimulus, ledger) pair. -/
def respondToEnrollment (st : Stimulus) (n : Neuron) (sender candidate : Addr)
    (stimulusId : Nat) (accept : Bool) : Option (Stimulus × Neuron) :=
  if sender = st.principalInvestigator then
    if accept then
      match Neuron.transferFrom n st.self st.principalInvestigator candidate
          (st.rewards 0) with
      | none => none
      | some n1 =>
        some ({ st with
          participants := Function.update st.participants candidate 3
          log := st.log ++ [StimulusEvent.StimulusResponse candidate 0 stimulusId true] }, n1)
    else
      some ({ st with
        participants := Function.update st.participants candidate 2
        log := st.log ++ [StimulusEvent.StimulusResponse candidate 0 stimulusId false] }, n)
  else none

/-- `respond(candidate, stimulusType, stimulusId, accept)`: requires the caller
to be the PI and `0 < stimulusType < 5`. On accept, requires the ledger
transfer of `rewards[stimulusType]` from the PI to the candidate to succeed;
it never reads or writes the participants mapping. Emits a
`StimulusResponse`. Returns the updated (stimulus, ledger) pair. -/
def respond (st : Stimulus) (n : Neuron) (sender candidate : Addr)
    (stimulusType stimulusId : Nat) (accept : Bool) : Option (Stimulus × Neuron) :=
  if sender = st.principalInvestigator then
    if 0 < stimulusType then
      if h5 : stimulusType < 5 then
        if accept then
          match Neuron.transferFrom n st.self st.principalInvestigator candidate
              (st.rewards ⟨stimulusType, h5⟩) with
          | none => none
          | some n1 =>
            some ({ st with
              log := st.log ++
                [StimulusEvent.StimulusResponse candidate stimulusType stimulusId true] }, n1)
        else
          some ({ st with
            log := st.log ++
              [StimulusEvent.StimulusResponse candidate stimulusType stimulusId false] }, n)
      else none
    else none
  else none

end Stimulus

/-! ### Well-formedness of ledger states -/

namespace Neuron

/-- The ledger mapping has finite support and its balances sum to `totalSupply`. -/
def SupplyInv (s : Neuron) : Prop :=
  ∃ S : Finset Addr, (∀ x, x ∉ S → s.ledger x = 0) ∧ (∑ x in S, s.ledger x) = s.totalSupply

/-- The inductive invariant of a deployed ledger: the supply/balance
accounting identity plus the `uint256` range bound on the supply. -/
def Inv (s : Neuron) : Prop := s.SupplyInv ∧ s.totalSupply < U256

/-- States of one `Neuron` instance reachable from its constructor by any
sequence of successful operations (including being the new ledger of a
reclamation against an arbitrary old ledger; being the old ledger of someone
else's reclamation is a `transferFrom`, which is also covered). The
`uint256`-typed operation arguments carry their ABI range bound where the
proofs need it. -/
inductive Reachable : Neuron → Prop where
  | deployed (sender self : Addr) (name symbol : String) (supply : Nat)
      (h : supply < U256) :
      Reachable (Neuron.construct sender self name symbol supply)
  | step_changeMastery (s s' : Neuron) (sender m : Addr) :
      Reachable s → Neuron.changeMastery s sender m = some s' → Reachable s'
  | step_changeName (s s' : Neuron) (sender : Addr) (nm : String) :
      Reachable s → Neuron.changeName s sender nm = some s' → Reachable s'
  | step_changeSymbol (s s' : Neuron) (sender : Addr) (sy : String) :
      Reachable s → Neuron.changeSymbol s sender sy = some s' → Reachable s'
  | step_approve (s s' : Neuron) (sender entity : Addr) (amt : Nat) :
      Reachable s → Neuron.approve s sender entity amt = some s' → Reachable s'
  | step_transfer (s s' : Neuron) (sender toAddress : Addr) (v : Nat) :
      Reachable s → Neuron.transfer s sender toAddress v = some s' → Reachable s'
  | step_transferFrom (s s' : Neuron) (sender fromAddress toAddress : Addr) (v : Nat) :
      Reachable s →
      Neuron.transferFrom s sender fromAddress toAddress v = some s' → Reachable s'
  | step_increaseSupply (s s' : Neuron) (sender : Addr) (a : Nat) (ha : a < U256) :
      Reachable s → Neuron.increaseSupply s sender a = some s' → Reachable s'
  | step_decreaseSupply (s s' : Neuron) (sender : Addr) (a : Nat) :
      Reachable s → Neuron.decreaseSupply s sender a = some s' → Reachable s'
  | step_whitelist (s s' : Neuron) (sender oldN : Addr) :
      Reachable s →
      Neuron.whitelistContractForReclamation s sender oldN = some s' → Reachable s'
  | step_reclaim (s s' old old1 : Neuron) (account : Addr) (a : Nat) (ha : a < U256) :
      Reachable s →
      Neuron.reclaimBalanceFrom s old account a = some (s', old1) → Reachable s'

end Neuron

/-! ### One step of the Stimulus state machine (any operation, any caller) -/

/-- One Stimulus operation together with its arguments and caller. -/
inductive SOp where
  | enrollOp (sender : Addr) (stimulusId : Nat)
  | submitOp (sender : Addr) (stimulusType stimulusId : Nat)
  | respondToEnrollmentOp (sender candidate : Addr) (stimulusId : Nat) (accept : Bool)
  | respondOp (sender candidate : Addr) (stimulusType stimulusId : Nat) (accept : Bool)
deriving DecidableEq

/-- Apply one Stimulus operation to a (stimulus, ledger) configuration;
`enroll` and `submit` never touch the ledger. -/
def applyOp (cfg : Stimulus × Neuron) : SOp → Option (Stimulus × Neuron)
  | SOp.enrollOp sender id => (Stimulus.enroll cfg.1 sender id).map (fun st => (st, cfg.2))
  | SOp.submitOp sender ty id => (Stimulus.submit cfg.1 sender ty id).map (fun st => (st, cfg.2))
  | SOp.respondToEnrollmentOp sender cand id acc =>
      Stimulus.respondToEnrollment cfg.1 cfg.2 sender cand id acc
  | SOp.respondOp sender cand ty id acc =>
      Stimulus.respond cfg.1 cfg.2 sender cand ty id acc

/-! ### A small concrete ledger state for witnesses -/

/-- A concrete well-formed ledger: deployed at address 2 with master 1,
supply 100 split between accounts 1 (60) and 3 (40), and account 1 having
approved spender 4 for 25. -/
def sampleLedger : Neuron :=
  { self := 2
    neuronMaster := 1
    name := "Neuron"
    symbol := "NRN"
    totalSupply := 100
    ledger := Function.update (Function.update (fun _ => 0) 1 60) 3 40
    allowances := update2 (fun _ _ => 0) 1 4 25
    reclamationWhitelist := fun _ => false
    log := [] }

/-! ### A small concrete stimulus configuration for witnesses -/

/-- A concrete stimulus at address 4 (which owner 1 has approved for 25 on
`sampleLedger`), PI = account 1, every reward 7, account 8 accepted and
account 9 rejected. -/
def sampleStimulus : Stimulus :=
  { self := 4
    principalInvestigator := 1
    rewards := fun _ => 7
    participants := Function.update (Function.update (fun _ => 0) 9 2) 8 3
    log := [] }

/-- The configuration reached from the sample one by account 7 enrolling. -/
def enrollStepResult : Stimulus × Neuron :=
  ({ sampleStimulus with
      participants := Function.update sampleStimulus.participants 7 1
      log := sampleStimulus.log ++ [StimulusEvent.StimulusRequest 7 0 1] },
    sampleLedger)

/-- A second concrete ledger instance (at address 4, which owner 1 approved
for 25 on `sampleLedger`) that has whitelisted `sampleLedger` (address 2). -/
def sampleNewLedger : Neuron :=
  { self := 4
    neuronMaster := 6
    name := "Neuron2"
    symbol := "NRN2"
    totalSupply := 50
    ledger := Function.update (fun _ => 0) 6 50
    allowances := fun _ _ => 0
    reclamationWhitelist := Function.update (fun _ => false) 2 true
    log := [] }


/-! ### Arithmetic helper lemmas for wrapping words -/

theorem U256_pos : 0 < U256 := by norm_num [U256]

theorem add256_eq_of_lt {a b : Nat} (h : a + b < U256) : add256 a b = a + b :=
  Nat.mod_eq_of_lt h

theorem sub256_eq_of_le {a b : Nat} (hba : b ≤ a) (ha : a < U256) : sub256 a b = a - b := by
  unfold sub256
  have h1 : a + U256 - b = a - b + U256 := by omega
  rw [h1, Nat.add_mod_right, Nat.mod_eq_of_lt (by omega)]

theorem sub256_add256_cancel {a b : Nat} (ha : a < U256) (hb : b ≤ U256) :
    sub256 (add256 a b) b = a := by
  unfold sub256 add256
  have h1 : (a + b) % U256 + U256 - b = (a + b) % U256 + (U256 - b) := by omega
  rw [h1, Nat.mod_add_mod]
  have h2 : a + b + (U256 - b) = a + U256 := by omega
  rw [h2, Nat.add_mod_right, Nat.mod_eq_of_lt ha]

theorem lt_add256_iff {a b : Nat} (ha : a < U256) (hb : b < U256) :
    a < add256 a b ↔ (0 < b ∧ a + b < U256) := by
  unfold add256
  constructor
  · intro h
    rcases Nat.lt_or_ge (a + b) U256 with h1 | h1
    · rw [Nat.mod_eq_of_lt h1] at h
      exact ⟨by omega, h1⟩
    · have h2 : (a + b) % U256 = a + b - U256 := by
        rw [Nat.mod_eq_sub_mod h1, Nat.mod_eq_of_lt (by omega)]
      omega
  · rintro ⟨h1, h2⟩
    rw [Nat.mod_eq_of_lt h2]
    omega

/-! ### Sums of updated balance maps -/

theorem sum_update_add (T : Finset Addr) (L : Addr → Nat) (c : Addr) (a : Nat)
    (hc : c ∈ T) :
    ∑ x in T, (Function.update L c (L c + a)) x = (∑ x in T, L x) + a := by
  rw [Finset.sum_update_of_mem hc, ← Finset.erase_eq,
    ← Finset.add_sum_erase T L hc]
  omega

theorem sum_update_sub (T : Finset Addr) (L : Addr → Nat) (c : Addr) (a : Nat)
    (hc : c ∈ T) (ha : a ≤ L c) :
    ∑ x in T, (Function.update L c (L c - a)) x = (∑ x in T, L x) - a := by
  rw [Finset.sum_update_of_mem hc, ← Finset.erase_eq,
    ← Finset.add_sum_erase T L hc]
  omega

theorem sum_update_update (T : Finset Addr) (L : Addr → Nat) (f t : Addr) (a : Nat)
    (hft : f ≠ t) (hf : f ∈ T) (ht : t ∈ T) (ha : a ≤ L f) :
    ∑ x in T, (Function.update (Function.update L t (L t + a)) f (L f - a)) x
      = ∑ x in T, L x := by
  have ht' : t ∈ T.erase f := Finset.mem_erase.2 ⟨fun h => hft h.symm, ht⟩
  rw [Finset.sum_update_of_mem hf, ← Finset.erase_eq,
    Finset.sum_update_of_mem ht', ← Finset.erase_eq,
    ← Finset.add_sum_erase T L hf, ← Finset.add_sum_erase (T.erase f) L ht']
  omega

namespace Neuron

theorem balance_le_supply {s : Neuron} (h : s.SupplyInv) (x : Addr) :
    s.ledger x ≤ s.totalSupply := by
  obtain ⟨S, hS, hsum⟩ := h
  by_cases hx : x ∈ S
  · calc s.ledger x ≤ ∑ y in S, s.ledger y :=
        Finset.single_le_sum (fun i _ => Nat.zero_le _) hx
      _ = s.totalSupply := hsum
  · rw [hS x hx]; exact Nat.zero_le _

theorem balance_pair_le_supply {s : Neuron} (h : s.SupplyInv) {x y : Addr}
    (hxy : x ≠ y) : s.ledger x + s.ledger y ≤ s.totalSupply := by
  obtain ⟨S, hS, hsum⟩ := h
  set T : Finset Addr := insert x (insert y S) with hT
  have hsub : S ⊆ T := by
    intro z hz
    simp [hT, hz]
  have hsumT : ∑ z in T, s.ledger z = s.totalSupply := by
    rw [← hsum]
    refine (Finset.sum_subset hsub ?_).symm
    intro z _ hzS
    exact hS z hzS
  have hxT : x ∈ T := by simp [hT]
  have hyT : y ∈ T.erase x := Finset.mem_erase.2 ⟨fun h => hxy h.symm, by simp [hT]⟩
  have h1 : ∑ z in T, s.ledger z = s.ledger x + ∑ z in T.erase x, s.ledger z :=
    (Finset.add_sum_erase T _ hxT).symm
  have h2 : s.ledger y ≤ ∑ z in T.erase x, s.ledger z :=
    Finset.single_le_sum (fun i _ => Nat.zero_le _) hyT
  omega

theorem changeHands_isSome (s : Neuron) (c f t : Addr) (a : Nat)
    (h1 : a ≤ s.ledger f) (h2 : c = f ∨ a ≤ s.allowances f c) :
    ∃ s', changeHands s c f t a = some s' := by
  have hb : (c == f || decide (a ≤ s.allowances f c)) = true := by
    simp only [Bool.or_eq_true, beq_iff_eq, decide_eq_true_eq]
    exact h2
  unfold changeHands
  rw [if_pos h1, if_pos hb]
  exact ⟨_, rfl⟩

theorem changeHands_none (s : Neuron) (c f t : Addr) (a : Nat)
    (h : ¬(a ≤ s.ledger f ∧ (c = f ∨ a ≤ s.allowances f c))) :
    changeHands s c f t a = none := by
  unfold changeHands
  by_cases h1 : a ≤ s.ledger f
  · rw [if_pos h1]
    have h2 : ¬(c = f ∨ a ≤ s.allowances f c) := fun hx => h ⟨h1, hx⟩
    have hb : (c == f || decide (a ≤ s.allowances f c)) = false := by
      rw [Bool.or_eq_false_iff]
      refine ⟨beq_eq_false_iff_ne.2 (fun hx => h2 (Or.inl hx)),
        decide_eq_false (fun hx => h2 (Or.inr hx))⟩
    simp only [hb, Bool.false_eq_true, if_false]
  · rw [if_neg h1]

theorem changeHands_spec {s s' : Neuron} {c f t : Addr} {a : Nat}
    (hinv : s.SupplyInv) (hts : s.totalSupply < U256)
    (h : changeHands s c f t a = some s') :
    a ≤ s.ledger f ∧ (c = f ∨ a ≤ s.allowances f c)
    ∧ s'.self = s.self ∧ s'.neuronMaster = s.neuronMaster
    ∧ s'.name = s.name ∧ s'.symbol = s.symbol
    ∧ s'.totalSupply = s.totalSupply
    ∧ s'.reclamationWhitelist = s.reclamationWhitelist
    ∧ s'.log = s.log ++ [LedgerEvent.Transfer f t a]
    ∧ (f = t → s'.ledger = s.ledger)
    ∧ (f ≠ t → s'.ledger =
        Function.update (Function.update s.ledger t (s.ledger t + a)) f (s.ledger f - a))
    ∧ (c = f → s'.allowances = s.allowances)
    ∧ (c ≠ f → s.allowances f c < U256 →
        s'.allowances = update2 s.allowances f c (s.allowances f c - a)) := by
  have hself : s.ledger f < U256 := lt_of_le_of_lt (balance_le_supply hinv f) hts
  have hledger_self : a ≤ s.ledger f → ∀ hft : f = t,
      Function.update (Function.update s.ledger t (add256 (s.ledger t) a)) f
        (sub256 (Function.update s.ledger t (add256 (s.ledger t) a) f) a) = s.ledger := by
    intro ha hft
    subst hft
    simp only [Function.update_same, Function.update_idem]
    rw [sub256_add256_cancel hself (le_of_lt (lt_of_le_of_lt ha hself))]
    exact Function.update_eq_self f s.ledger
  unfold changeHands at h
  split_ifs at h with h1 h2 hne
  all_goals
    have h2' : c = f ∨ a ≤ s.allowances f c := by
      simpa only [Bool.or_eq_true, beq_iff_eq, decide_eq_true_eq] using h2
  all_goals injection h with h
  all_goals subst h
  · -- caller is not the source: the allowance is decremented
    have hcf : c ≠ f := by simpa using hne
    refine ⟨h1, h2', rfl, rfl, rfl, rfl, rfl, rfl, rfl, ?_, ?_, ?_, ?_⟩
    · intro hft
      exact hledger_self h1 hft
    · intro hft
      have hpair : s.ledger t + s.ledger f ≤ s.totalSupply :=
        balance_pair_le_supply hinv (fun h => hft h.symm)
      rw [Function.update_noteq hft]
      rw [add256_eq_of_lt (by omega), sub256_eq_of_le h1 (by omega)]
    · intro hcf'
      exact absurd hcf' hcf
    · intro _ hal
      have hle : a ≤ s.allowances f c := h2'.resolve_left hcf
      rw [sub256_eq_of_le hle hal]
  · -- caller is the source: allowances untouched
    have hcf : c = f := by simpa using hne
    refine ⟨h1, h2', rfl, rfl, rfl, rfl, rfl, rfl, rfl, ?_, ?_, ?_, ?_⟩
    · intro hft
      exact hledger_self h1 hft
    · intro hft
      have hpair : s.ledger t + s.ledger f ≤ s.totalSupply :=
        balance_pair_le_supply hinv (fun h => hft h.symm)
      rw [Function.update_noteq hft]
      rw [add256_eq_of_lt (by omega), sub256_eq_of_le h1 (by omega)]
    · intro _
      rfl
    · intro hcf' _
      exact absurd hcf hcf'

theorem increaseSupply_spec {s s' : Neuron} {c : Addr} {a : Nat}
    (hts : s.totalSupply < U256) (ha : a < U256)
    (h : increaseSupply s c a = some s') :
    (c = s.self ∨ c = s.neuronMaster) ∧ 0 < a ∧ s.totalSupply + a < U256
    ∧ s'.totalSupply = s.totalSupply + a
    ∧ (s.SupplyInv → s'.ledger = Function.update s.ledger c (s.ledger c + a))
    ∧ s'.self = s.self ∧ s'.neuronMaster = s.neuronMaster ∧ s'.name = s.name
    ∧ s'.symbol = s.symbol ∧ s'.allowances = s.allowances
    ∧ s'.reclamationWhitelist = s.reclamationWhitelist ∧ s'.log = s.log := by
  simp only [increaseSupply] at h
  split_ifs at h with h1 h2
  injection h with h
  subst h
  have h1' : c = s.self ∨ c = s.neuronMaster := by
    simpa only [Bool.or_eq_true, beq_iff_eq, hasMastery] using h1
  have hb := (lt_add256_iff hts ha).1 h2
  refine ⟨h1', hb.1, hb.2, add256_eq_of_lt hb.2, ?_, rfl, rfl, rfl, rfl, rfl, rfl, rfl⟩
  intro hinv
  have hc : s.ledger c ≤ s.totalSupply := balance_le_supply hinv c
  show Function.update s.ledger c (add256 (s.ledger c) a) = _
  rw [add256_eq_of_lt (by omega)]

theorem increaseSupply_isSome (s : Neuron) (c : Addr) (a : Nat)
    (h1 : c = s.self ∨ c = s.neuronMaster) (h2 : 0 < a)
    (h3 : s.totalSupply + a < U256) :
    ∃ s', increaseSupply s c a = some s' := by
  have hb : (c == s.self || s.hasMastery c) = true := by
    simp only [Bool.or_eq_true, beq_iff_eq, hasMastery]
    exact h1
  have he : add256 s.totalSupply a = s.totalSupply + a := add256_eq_of_lt h3
  simp only [increaseSupply, hb, if_true, he]
  rw [if_pos (by omega)]
  exact ⟨_, rfl⟩

theorem decreaseSupply_spec {s s' : Neuron} {c : Addr} {a : Nat}
    (hinv : s.SupplyInv) (hts : s.totalSupply < U256)
    (h : decreaseSupply s c a = some s') :
    a ≤ s.ledger c ∧ 0 < a
    ∧ s'.totalSupply = s.totalSupply - a
    ∧ s'.ledger = Function.update s.ledger c (s.ledger c - a) := by
  have hc : s.ledger c ≤ s.totalSupply := balance_le_supply hinv c
  simp only [decreaseSupply] at h
  split_ifs at h with h1 h2 h3 h4
  injection h with h
  subst h
  have hsub : sub256 s.totalSupply a = s.totalSupply - a :=
    sub256_eq_of_le (by omega) hts
  rw [hsub] at h4
  have hsubc : sub256 (s.ledger c) a = s.ledger c - a :=
    sub256_eq_of_le h2 (by omega)
  exact ⟨h2, by omega, hsub, by rw [hsubc]⟩

/-! ### Preservation of the supply invariant -/

theorem sum_insert_support (S : Finset Addr) (L : Addr → Nat)
    (hS : ∀ x ∉ S, L x = 0) (c : Addr) :
    ∑ x in insert c S, L x = ∑ x in S, L x :=
  (Finset.sum_subset (Finset.subset_insert c S) (fun x _ hxs => hS x hxs)).symm

theorem inv_changeHands {s s' : Neuron} {c f t : Addr} {a : Nat}
    (hinv : s.Inv) (h : changeHands s c f t a = some s') : s'.Inv := by
  obtain ⟨hsup, hts⟩ := hinv
  obtain ⟨h1, _, _, _, _, _, hts', _, _, hlsame, hldiff, _, _⟩ :=
    changeHands_spec hsup hts h
  refine ⟨?_, by rw [hts']; exact hts⟩
  by_cases hft : f = t
  · obtain ⟨S, hS, hsum⟩ := hsup
    exact ⟨S, by rw [hlsame hft]; exact hS, by rw [hlsame hft, hsum, hts']⟩
  · obtain ⟨S, hS, hsum⟩ := hsup
    refine ⟨insert f (insert t S), ?_, ?_⟩
    · intro x hx
      simp only [Finset.mem_insert, not_or] at hx
      rw [hldiff hft, Function.update_noteq hx.1, Function.update_noteq hx.2.1]
      exact hS x hx.2.2
    · have hS2 : ∀ x ∉ insert t S, s.ledger x = 0 :=
        fun x hx => hS x (fun hxs => hx (Finset.mem_insert_of_mem hxs))
      rw [hldiff hft, hts',
        sum_update_update _ s.ledger f t a hft (by simp) (by simp) h1,
        sum_insert_support _ _ hS2 f, sum_insert_support _ _ hS t, hsum]

theorem inv_increaseSupply {s s' : Neuron} {c : Addr} {a : Nat}
    (hinv : s.Inv) (ha : a < U256) (h : increaseSupply s c a = some s') : s'.Inv := by
  obtain ⟨hsup, hts⟩ := hinv
  obtain ⟨_, hpos, hov, hts', hled, _⟩ := increaseSupply_spec hts ha h
  have hl := hled hsup
  obtain ⟨S, hS, hsum⟩ := hsup
  refine ⟨⟨insert c S, ?_, ?_⟩, by omega⟩
  · intro x hx
    simp only [Finset.mem_insert, not_or] at hx
    rw [hl, Function.update_noteq hx.1]
    exact hS x hx.2
  · rw [hl, sum_update_add _ s.ledger c a (Finset.mem_insert_self c S),
      sum_insert_support _ _ hS, hsum, hts']

theorem inv_decreaseSupply {s s' : Neuron} {c : Addr} {a : Nat}
    (hinv : s.Inv) (h : decreaseSupply s c a = some s') : s'.Inv := by
  obtain ⟨hsup, hts⟩ := hinv
  obtain ⟨hle, _, hts', hl⟩ := decreaseSupply_spec hsup hts h
  obtain ⟨S, hS, hsum⟩ := hsup
  refine ⟨⟨insert c S, ?_, ?_⟩, by omega⟩
  · intro x hx
    simp only [Finset.mem_insert, not_or] at hx
    rw [hl, Function.update_noteq hx.1]
    exact hS x hx.2
  · rw [hl, sum_update_sub _ s.ledger c a (Finset.mem_insert_self c S) hle,
      sum_insert_support _ _ hS, hsum, hts']

theorem inv_reclaim {s s' old old1 : Neuron} {account : Addr} {a : Nat}
    (hinv : s.Inv) (ha : a < U256)
    (h : reclaimBalanceFrom s old account a = some (s', old1)) : s'.Inv := by
  unfold reclaimBalanceFrom at h
  split_ifs at h with hw
  rcases htf : Neuron.transferFrom old s.self account s.self a with _ | o1 <;>
    simp [htf] at h
  rcases hinc : Neuron.increaseSupply s s.self a with _ | s1 <;>
    simp [hinc] at h
  rcases htr : Neuron.transfer s1 s.self account a with _ | s2 <;>
    simp [htr] at h
  obtain ⟨rfl, rfl⟩ := h
  have h1 : s1.Inv := inv_increaseSupply hinv ha hinc
  unfold transfer at htr
  exact inv_changeHands h1 htr



theorem reachable_inv {s : Neuron} (h : s.Reachable) : s.Inv := by
  induction h with
  | deployed sender self nm sy supply hU =>
    refine ⟨⟨{sender}, ?_, ?_⟩, hU⟩
    · intro x hx
      have hxs : x ≠ sender := by simpa using hx
      simp [Neuron.construct, Function.update_noteq hxs]
    · simp [Neuron.construct]
  | step_changeMastery s s' sender m hr heq ih =>
    unfold changeMastery at heq
    split_ifs at heq
    injection heq with heq
    subst heq
    exact ih
  | step_changeName s s' sender nm hr heq ih =>
    unfold changeName at heq
    split_ifs at heq
    injection heq with heq
    subst heq
    exact ih
  | step_changeSymbol s s' sender sy hr heq ih =>
    unfold changeSymbol at heq
    split_ifs at heq
    injection heq with heq
    subst heq
    exact ih
  | step_approve s s' sender entity amt hr heq ih =>
    unfold approve at heq
    split_ifs at heq
    injection heq with heq
    subst heq
    exact ih
  | step_transfer s s' sender toAddress v hr heq ih =>
    unfold transfer at heq
    exact inv_changeHands ih heq
  | step_transferFrom s s' sender fromAddress toAddress v hr heq ih =>
    unfold transferFrom at heq
    exact inv_changeHands ih heq
  | step_increaseSupply s s' sender a ha hr heq ih =>
    exact inv_increaseSupply ih ha heq
  | step_decreaseSupply s s' sender a hr heq ih =>
    exact inv_decreaseSupply ih heq
  | step_whitelist s s' sender oldN hr heq ih =>
    unfold whitelistContractForReclamation at heq
    split_ifs at heq
    injection heq with heq
    subst heq
    exact ih
  | step_reclaim s s' old old1 account a ha hr heq ih =>
    exact inv_reclaim ih ha heq

end Neuron

/-- C1: in every state of a Neuron ledger reachable from its construction by
any sequence of successful operations (transfers, approvals, supply changes,
reclamation, mastery/metadata changes), `totalSupply` equals the sum of the
balances over all accounts: the balance map has finite support and its total
over any finite set containing that support is `totalSupply`. -/
theorem Neuron.supply_eq_sum_balances {s : Neuron} (h : s.Reachable) :
    ∃ S : Finset Addr, (∀ x, x ∉ S → s.ledger x = 0)
      ∧ (∑ x in S, s.ledger x) = s.totalSupply :=
  (Neuron.reachable_inv h).1

/-- Witness for C1 at a concretely constructed ledger. -/
theorem Neuron.supply_eq_sum_balances_witness :
    ∃ S : Finset Addr,
      (∀ x, x ∉ S → (Neuron.construct 1 2 "Neuron" "NRN" 100).ledger x = 0)
      ∧ (∑ x in S, (Neuron.construct 1 2 "Neuron" "NRN" 100).ledger x)
          = (Neuron.construct 1 2 "Neuron" "NRN" 100).totalSupply :=
  Neuron.supply_eq_sum_balances
    (Neuron.Reachable.deployed 1 2 "Neuron" "NRN" 100 (by norm_num [U256]))

/-! ### Pointwise evaluation of two-level map updates -/

theorem update2_apply (m : Addr → Addr → Nat) (o s : Addr) (v : Nat) (x y : Addr) :
    update2 m o s v x y = if x = o then (if y = s then v else m o y) else m x y := by
  unfold update2
  by_cases hx : x = o
  · subst hx
    rw [Function.update_same, Function.update_apply, if_pos rfl]
  · rw [Function.update_noteq hx]
    rw [if_neg hx]

theorem update2_eq_self (m : Addr → Addr → Nat) (o s : Addr) :
    update2 m o s (m o s) = m := by
  unfold update2
  rw [Function.update_eq_self, Function.update_eq_self]

theorem sampleLedger_supplyInv : sampleLedger.SupplyInv := by
  refine ⟨{1, 3}, ?_, ?_⟩
  · intro x hx
    simp only [Finset.mem_insert, Finset.mem_singleton, not_or] at hx
    simp [sampleLedger, Function.update_apply, hx.1, hx.2]
  · rw [Finset.sum_pair (by norm_num : (1 : Addr) ≠ 3)]
    simp [sampleLedger, Function.update_apply]

/-- C3: for a well-formed ledger state, `transferFrom(c, f, t, a)` succeeds
iff `a ≤ balances[f]` and (`c = f` or `allowances[f][c] ≥ a`); on success
`balances[f]` decreases by `a` and `balances[t]` increases by `a` (net zero
when `f = t`), the allowance `allowances[f][c]` decreases by `a` exactly when
`c ≠ f`, nothing else changes, and the supply is unchanged. A failed call
returns `none`, i.e. reverts with no state change. -/
theorem Neuron.transferFrom_spec (s : Neuron) (c f t : Addr) (a : Nat)
    (hinv : s.SupplyInv) (hts : s.totalSupply < U256)
    (hal : s.allowances f c < U256) :
    ((∃ s', Neuron.transferFrom s c f t a = some s') ↔
      (a ≤ s.ledger f ∧ (c = f ∨ a ≤ s.allowances f c)))
    ∧ ∀ s', Neuron.transferFrom s c f t a = some s' →
        s'.totalSupply = s.totalSupply
        ∧ (f ≠ t → s'.ledger f + a = s.ledger f ∧ s'.ledger t = s.ledger t + a)
        ∧ (f = t → s'.ledger = s.ledger)
        ∧ (∀ x, x ≠ f → x ≠ t → s'.ledger x = s.ledger x)
        ∧ (c ≠ f → s'.allowances f c + a = s.allowances f c)
        ∧ (c = f → s'.allowances = s.allowances)
        ∧ (∀ o p, ¬(o = f ∧ p = c) → s'.allowances o p = s.allowances o p)
        ∧ s'.log = s.log ++ [LedgerEvent.Transfer f t a] := by
  constructor
  · constructor
    · rintro ⟨s', hs'⟩
      have hspec := Neuron.changeHands_spec hinv hts hs'
      exact ⟨hspec.1, hspec.2.1⟩
    · rintro ⟨h1, h2⟩
      exact Neuron.changeHands_isSome s c f t a h1 h2
  · intro s' hs'
    obtain ⟨h1, h2, _, _, _, _, hts', _, hlog, hlsame, hldiff, hacsame, hacd⟩ :=
      Neuron.changeHands_spec hinv hts hs'
    refine ⟨hts', ?_, hlsame, ?_, ?_, hacsame, ?_, hlog⟩
    · intro hft
      rw [hldiff hft]
      constructor
      · rw [Function.update_same]
        omega
      · rw [Function.update_noteq (fun h => hft h.symm), Function.update_same]
    · intro x hxf hxt
      by_cases hft : f = t
      · rw [hlsame hft]
      · rw [hldiff hft, Function.update_noteq hxf, Function.update_noteq hxt]
    · intro hcf
      have hle : a ≤ s.allowances f c := h2.resolve_left hcf
      rw [hacd hcf hal, update2_apply, if_pos rfl, if_pos rfl]
      omega
    · intro o p hop
      by_cases hcf : c = f
      · rw [hacsame hcf]
      · rw [hacd hcf hal, update2_apply]
        by_cases ho : o = f
        · subst ho
          have hp : p ≠ c := fun hp => hop ⟨rfl, hp⟩
          rw [if_pos rfl, if_neg hp]
        · rw [if_neg ho]

/-- Witness for C3: on the concrete `sampleLedger`, spender 4 moving 10 from
account 1 to account 3 succeeds (allowance 25 ≥ 10, balance 60 ≥ 10). -/
theorem Neuron.transferFrom_spec_witness :
    ∃ s', Neuron.transferFrom sampleLedger 4 1 3 10 = some s' :=
  (Neuron.transferFrom_spec sampleLedger 4 1 3 10 sampleLedger_supplyInv
    (by norm_num [sampleLedger, U256])
    (by norm_num [sampleLedger, update2_apply, U256])).1.mpr
    ⟨by norm_num [sampleLedger, Function.update_apply],
     Or.inr (by norm_num [sampleLedger, update2_apply])⟩

/-- Counterexample to C5 as stated: on `sampleLedger` the master (account 1)
calls `increaseSupply` with amount 0. The caller is authorized and the
resulting supply does not overflow, yet the call fails, because the source
requires the new supply to strictly exceed the old one. -/
theorem Neuron.increaseSupply_zero_cex :
    Neuron.increaseSupply sampleLedger 1 0 = none
    ∧ (1 = sampleLedger.self ∨ 1 = sampleLedger.neuronMaster)
    ∧ sampleLedger.totalSupply + 0 < U256 :=
  ⟨rfl, Or.inr rfl, by norm_num [sampleLedger, U256]⟩

/-- C5 (amended): for a well-formed state and a `uint256` amount,
`increaseSupply(caller, amount)` succeeds iff the caller is the master or the
ledger's own identity, the amount is nonzero, and `totalSupply + amount` does
not overflow; on success `balances[caller]` and `totalSupply` each increase by
exactly `amount` and nothing else changes; on failure the call returns `none`,
i.e. reverts with no state change. -/
theorem Neuron.increaseSupply_spec_amended (s : Neuron) (c : Addr) (a : Nat)
    (hinv : s.SupplyInv) (hts : s.totalSupply < U256) (ha : a < U256) :
    ((∃ s', Neuron.increaseSupply s c a = some s') ↔
      ((c = s.self ∨ c = s.neuronMaster) ∧ 0 < a ∧ s.totalSupply + a < U256))
    ∧ ∀ s', Neuron.increaseSupply s c a = some s' →
        s'.totalSupply = s.totalSupply + a
        ∧ s'.ledger c = s.ledger c + a
        ∧ (∀ x, x ≠ c → s'.ledger x = s.ledger x)
        ∧ s'.allowances = s.allowances
        ∧ s'.log = s.log := by
  constructor
  · constructor
    · rintro ⟨s', hs'⟩
      obtain ⟨h1, h2, h3, _⟩ := Neuron.increaseSupply_spec hts ha hs'
      exact ⟨h1, h2, h3⟩
    · rintro ⟨h1, h2, h3⟩
      exact Neuron.increaseSupply_isSome s c a h1 h2 h3
  · intro s' hs'
    obtain ⟨_, _, _, hts', hled, _, _, _, _, hac, _, hlog⟩ :=
      Neuron.increaseSupply_spec hts ha hs'
    have hl := hled hinv
    refine ⟨hts', ?_, ?_, hac, hlog⟩
    · rw [hl, Function.update_same]
    · intro x hx
      rw [hl, Function.update_noteq hx]

/-- Witness for C5 (amended): the master mints 17 on `sampleLedger`. -/
theorem Neuron.increaseSupply_spec_amended_witness :
    ∃ s', Neuron.increaseSupply sampleLedger 1 17 = some s' :=
  (Neuron.increaseSupply_spec_amended sampleLedger 1 17 sampleLedger_supplyInv
    (by norm_num [sampleLedger, U256]) (by norm_num [U256])).1.mpr
    ⟨Or.inr rfl, by norm_num, by norm_num [sampleLedger, U256]⟩

/-- C6: `approve(caller, spender, amount)` fails exactly when both the new
amount and the existing allowance are nonzero; otherwise it succeeds, sets
`allowances[caller][spender] = amount`, emits an Approval record, and changes
no balance or supply. -/
theorem Neuron.approve_spec (s : Neuron) (c e : Addr) (amt : Nat) :
    (Neuron.approve s c e amt = none ↔ (amt ≠ 0 ∧ s.allowances c e ≠ 0))
    ∧ ∀ s', Neuron.approve s c e amt = some s' →
        s'.allowances = update2 s.allowances c e amt
        ∧ s'.ledger = s.ledger
        ∧ s'.totalSupply = s.totalSupply
        ∧ s'.log = s.log ++ [LedgerEvent.Approval c e amt] := by
  unfold Neuron.approve
  rw [if_pos (Nat.zero_le amt)]
  by_cases hb : (amt == 0 || s.allowances c e == 0) = true
  · have hb' : amt = 0 ∨ s.allowances c e = 0 := by simpa using hb
    rw [if_pos hb]
    constructor
    · refine iff_of_false (by simp) ?_
      rintro ⟨h1, h2⟩
      rcases hb' with h | h
      · exact h1 h
      · exact h2 h
    · intro s' hs'
      injection hs' with hs'
      subst hs'
      exact ⟨rfl, rfl, rfl, rfl⟩
  · have hb' : ¬(amt = 0 ∨ s.allowances c e = 0) := by simpa using hb
    rw [if_neg hb]
    constructor
    · exact iff_of_true rfl (not_or.1 hb')
    · intro s' hs'
      exact absurd hs' (by simp)

/-- Witness for C6: re-approving spender 4 of owner 1 (existing allowance 25)
with the nonzero amount 9 fails on `sampleLedger`. -/
theorem Neuron.approve_spec_witness :
    Neuron.approve sampleLedger 1 4 9 = none :=
  (Neuron.approve_spec sampleLedger 1 4 9).1.mpr
    ⟨by norm_num, by norm_num [sampleLedger, update2_apply]⟩

/-- C9: on a well-formed state a zero-amount `transferFrom(c, f, t, 0)`
always succeeds — even with zero allowance and `c ≠ f` — emits a
`Transfer(f, t, 0)` record, and leaves every balance, every allowance and the
supply unchanged: the result is the pre-state with only the log extended. -/
theorem Neuron.transferFrom_zero (s : Neuron) (c f t : Addr)
    (hinv : s.SupplyInv) (hts : s.totalSupply < U256)
    (hal : s.allowances f c < U256) :
    Neuron.transferFrom s c f t 0 =
      some { s with log := s.log ++ [LedgerEvent.Transfer f t 0] } := by
  obtain ⟨s', hs'⟩ :=
    Neuron.changeHands_isSome s c f t 0 (Nat.zero_le _) (Or.inr (Nat.zero_le _))
  obtain ⟨_, _, hself, hmast, hname, hsym, hts', hwl, hlog, hlsame, hldiff, hacsame, hacd⟩ :=
    Neuron.changeHands_spec hinv hts hs'
  unfold Neuron.transferFrom
  rw [hs']
  congr 1
  apply Neuron.ext
  · exact hself
  · exact hmast
  · exact hname
  · exact hsym
  · exact hts'
  · by_cases hft : f = t
    · rw [hlsame hft]
    · rw [hldiff hft]
      have h1 : s.ledger f - 0 = s.ledger f := by omega
      have h2 : s.ledger t + 0 = s.ledger t := by omega
      rw [h1, h2, Function.update_eq_self, Function.update_eq_self]
  · by_cases hcf : c = f
    · rw [hacsame hcf]
    · rw [hacd hcf hal]
      have h0 : s.allowances f c - 0 = s.allowances f c := by omega
      rw [h0, update2_eq_self]
  · exact hwl
  · exact hlog

/-- Witness for C9: account 9 (with zero allowance from account 1) moves 0
from account 1 to account 3 on `sampleLedger`. -/
theorem Neuron.transferFrom_zero_witness :
    Neuron.transferFrom sampleLedger 9 1 3 0 =
      some { sampleLedger with log := sampleLedger.log ++ [LedgerEvent.Transfer 1 3 0] } :=
  Neuron.transferFrom_zero sampleLedger 9 1 3 sampleLedger_supplyInv
    (by norm_num [sampleLedger, U256])
    (by norm_num [sampleLedger, update2_apply, U256])



/-- C8: `submit(caller, stimulusType, submissionId)` fails whenever the
caller's status is not Accepted (3) and whenever `stimulusType` is outside
`[1,4]`; a successful call only appends a `StimulusRequest` record, leaving
the participants map untouched. The operation takes no ledger argument at all
(the source never touches `nrn`), so no balance or allowance can change. -/
theorem Stimulus.submit_spec (st : Stimulus) (c : Addr) (ty id : Nat) :
    (st.participants c ≠ 3 → Stimulus.submit st c ty id = none)
    ∧ (¬(0 < ty ∧ ty < 5) → Stimulus.submit st c ty id = none)
    ∧ (∀ st', Stimulus.submit st c ty id = some st' →
        st.participants c = 3 ∧ 0 < ty ∧ ty < 5
        ∧ st' = { st with log := st.log ++ [StimulusEvent.StimulusRequest c ty id] }) := by
  unfold Stimulus.submit
  refine ⟨?_, ?_, ?_⟩
  · intro hc
    rw [if_neg hc]
  · intro hty
    by_cases hc : st.participants c = 3
    · rw [if_pos hc]
      by_cases h1 : 0 < ty
      · rw [if_pos h1, if_neg (fun h5 => hty ⟨h1, h5⟩)]
      · rw [if_neg h1]
    · rw [if_neg hc]
  · intro st' hst'
    split_ifs at hst' with hc h1 h5
    injection hst' with hst'
    exact ⟨hc, h1, h5, hst'.symm⟩

/-- Witness for C8: the accepted account 8 submits type 2, and the rejected
account 9 cannot submit. -/
theorem Stimulus.submit_spec_witness :
    Stimulus.submit sampleStimulus 8 2 11 =
      some { sampleStimulus with
        log := sampleStimulus.log ++ [StimulusEvent.StimulusRequest 8 2 11] }
    ∧ Stimulus.submit sampleStimulus 9 2 11 = none := by
  constructor
  · have h := (Stimulus.submit_spec sampleStimulus 8 2 11).2.2
    rcases he : Stimulus.submit sampleStimulus 8 2 11 with _ | st'
    · exact absurd he (by intro h'; exact Option.noConfusion (h'.symm.trans rfl))
    · rw [(h st' he).2.2.2]
  · exact (Stimulus.submit_spec sampleStimulus 9 2 11).1 (by norm_num [sampleStimulus, Function.update_apply])

/-- C4: `respondToEnrollment(caller, candidate, submissionId, accept)` fails
for any caller other than the PI. For the PI with `accept = true` it succeeds
exactly when the ledger transfer of `rewards[0]` from the PI to the candidate
succeeds, and then sets the candidate's status to Accepted (3) and appends a
`StimulusResponse(candidate, 0, submissionId, true)` record; if the transfer
fails the whole call fails (returns `none`, so the status is unchanged). For
the PI with `accept = false` it succeeds unconditionally, setting the status
to Rejected (2) and appending the corresponding record. -/
theorem Stimulus.respondToEnrollment_spec (st : Stimulus) (n : Neuron)
    (sender cand : Addr) (id : Nat) (acc : Bool) :
    (sender ≠ st.principalInvestigator →
      Stimulus.respondToEnrollment st n sender cand id acc = none)
    ∧ (sender = st.principalInvestigator → acc = true →
        ((∃ r, Stimulus.respondToEnrollment st n sender cand id acc = some r) ↔
          (∃ n1, Neuron.transferFrom n st.self st.principalInvestigator cand
            (st.rewards 0) = some n1))
        ∧ ∀ st1 n1, Stimulus.respondToEnrollment st n sender cand id acc = some (st1, n1) →
            Neuron.transferFrom n st.self st.principalInvestigator cand
              (st.rewards 0) = some n1
            ∧ st1 = { st with
                participants := Function.update st.participants cand 3
                log := st.log ++ [StimulusEvent.StimulusResponse cand 0 id true] })
    ∧ (sender = st.principalInvestigator → acc = false →
        Stimulus.respondToEnrollment st n sender cand id acc =
          some ({ st with
            participants := Function.update st.participants cand 2
            log := st.log ++ [StimulusEvent.StimulusResponse cand 0 id false] }, n)) := by
  refine ⟨?_, ?_, ?_⟩
  · intro hpi
    unfold Stimulus.respondToEnrollment
    rw [if_neg hpi]
  · intro hpi hacc
    subst hacc
    refine ⟨⟨?_, ?_⟩, ?_⟩
    · rintro ⟨r, hr⟩
      unfold Stimulus.respondToEnrollment at hr
      rw [if_pos hpi, if_pos rfl] at hr
      rcases htf : Neuron.transferFrom n st.self st.principalInvestigator cand
          (st.rewards 0) with _ | n1 <;> simp only [htf] at hr
      · exact Option.noConfusion hr
      · exact ⟨n1, rfl⟩
    · rintro ⟨n1, hn1⟩
      unfold Stimulus.respondToEnrollment
      rw [if_pos hpi, if_pos rfl, hn1]
      exact ⟨_, rfl⟩
    · intro st1 n1 hr
      unfold Stimulus.respondToEnrollment at hr
      rw [if_pos hpi, if_pos rfl] at hr
      rcases htf : Neuron.transferFrom n st.self st.principalInvestigator cand
          (st.rewards 0) with _ | n2 <;> simp only [htf] at hr
      · exact Option.noConfusion hr
      · injection hr with hr
        injection hr with hr1 hr2
        subst hr2
        exact ⟨rfl, hr1.symm⟩
  · intro hpi hacc
    subst hacc
    unfold Stimulus.respondToEnrollment
    rw [if_pos hpi]
    rfl

/-- Witness for C4: the PI rejects candidate 9 on the sample configuration;
the call succeeds and sets status 2 without touching the ledger. -/
theorem Stimulus.respondToEnrollment_spec_witness :
    Stimulus.respondToEnrollment sampleStimulus sampleLedger 1 9 5 false =
      some ({ sampleStimulus with
        participants := Function.update sampleStimulus.participants 9 2
        log := sampleStimulus.log ++ [StimulusEvent.StimulusResponse 9 0 5 false] },
        sampleLedger) :=
  (Stimulus.respondToEnrollment_spec sampleStimulus sampleLedger 1 9 5 false).2.2 rfl rfl

/-- C10: `respond(caller, candidate, stimulusType, submissionId, accept)`
never reads the candidate's participant status: its success condition (PI
caller, type in `[1,4]`, and — only when accepting — a successful ledger
transfer of `rewards[stimulusType]` from the PI) makes no reference to the
participants map, so it succeeds even for Unset, Pending or Rejected
candidates; and every successful call leaves the participants map unchanged. -/
theorem Stimulus.respond_spec (st : Stimulus) (n : Neuron) (sender cand : Addr)
    (ty id : Nat) (acc : Bool) :
    (∀ st1 n1, Stimulus.respond st n sender cand ty id acc = some (st1, n1) →
        st1.participants = st.participants)
    ∧ (sender = st.principalInvestigator → 0 < ty → ∀ h5 : ty < 5,
        (acc = false →
          Stimulus.respond st n sender cand ty id acc =
            some ({ st with
              log := st.log ++ [StimulusEvent.StimulusResponse cand ty id false] }, n))
        ∧ (acc = true →
            ((∃ r, Stimulus.respond st n sender cand ty id acc = some r) ↔
              (∃ n1, Neuron.transferFrom n st.self st.principalInvestigator cand
                (st.rewards ⟨ty, h5⟩) = some n1))
            ∧ ∀ st1 n1, Stimulus.respond st n sender cand ty id acc = some (st1, n1) →
                Neuron.transferFrom n st.self st.principalInvestigator cand
                  (st.rewards ⟨ty, h5⟩) = some n1
                ∧ st1 = { st with
                    log := st.log ++ [StimulusEvent.StimulusResponse cand ty id true] })) := by
  constructor
  · intro st1 n1 h
    unfold Stimulus.respond at h
    split_ifs at h with hpi h1 h5 hacc
    · rcases htf : Neuron.transferFrom n st.self st.principalInvestigator cand
          (st.rewards ⟨ty, h5⟩) with _ | n2 <;> simp only [htf] at h
      · exact Option.noConfusion h
      · injection h with h
        injection h with hst hn
        rw [← hst]
    · injection h with h
      injection h with hst hn
      rw [← hst]
  · intro hpi h01 h5
    constructor
    · intro hacc
      subst hacc
      unfold Stimulus.respond
      rw [if_pos hpi, if_pos h01, dif_pos h5]
      rfl
    · intro hacc
      subst hacc
      refine ⟨⟨?_, ?_⟩, ?_⟩
      · rintro ⟨r, hr⟩
        unfold Stimulus.respond at hr
        rw [if_pos hpi, if_pos h01, dif_pos h5, if_pos rfl] at hr
        rcases htf : Neuron.transferFrom n st.self st.principalInvestigator cand
            (st.rewards ⟨ty, h5⟩) with _ | n2 <;> simp only [htf] at hr
        · exact Option.noConfusion hr
        · exact ⟨n2, rfl⟩
      · rintro ⟨n1, hn1⟩
        unfold Stimulus.respond
        rw [if_pos hpi, if_pos h01, dif_pos h5, if_pos rfl, hn1]
        exact ⟨_, rfl⟩
      · intro st1 n1 hr
        unfold Stimulus.respond at hr
        rw [if_pos hpi, if_pos h01, dif_pos h5, if_pos rfl] at hr
        rcases htf : Neuron.transferFrom n st.self st.principalInvestigator cand
            (st.rewards ⟨ty, h5⟩) with _ | n2 <;> simp only [htf] at hr
        · exact Option.noConfusion hr
        · injection hr with hr
          injection hr with hr1 hr2
          subst hr2
          exact ⟨rfl, hr1.symm⟩

/-- Witness for C10: the PI pays a type-2 reward to the rejected account 9
(status 2) on the sample configuration; the call succeeds. -/
theorem Stimulus.respond_spec_witness :
    sampleStimulus.participants 9 = 2
    ∧ ∃ r, Stimulus.respond sampleStimulus sampleLedger 1 9 2 11 true = some r :=
  ⟨rfl,
    (((Stimulus.respond_spec sampleStimulus sampleLedger 1 9 2 11 true).2 rfl
      (by norm_num) (by norm_num)).2 rfl).1.mpr ⟨_, rfl⟩⟩



/-- Counterexample to C2 as stated: on the sample configuration account 9 is
Rejected (2), yet the PI's `respondToEnrollment(9, 0, accept = true)` succeeds
(the reward transfer goes through) and sets account 9's status to
Accepted (3): Rejected is not a terminal state. -/
theorem Stimulus.rejected_reaccepted_cex :
    sampleStimulus.participants 9 = 2
    ∧ (applyOp (sampleStimulus, sampleLedger)
        (SOp.respondToEnrollmentOp 1 9 0 true)).map (fun cfg => cfg.1.participants 9)
      = some 3 :=
  ⟨rfl, rfl⟩

/-- C2 (amended): once a participant is Rejected (2), a successful operation
either leaves them Rejected or — only via the PI's `respondToEnrollment` with
`accept = true` on that very participant — makes them Accepted (3). In
particular no single step from Rejected ever yields Pending (1), and the
participant's own `enroll` keeps failing while they remain Rejected. -/
theorem Stimulus.rejected_no_pending_step (cfg cfg' : Stimulus × Neuron) (op : SOp)
    (p : Addr) (h : applyOp cfg op = some cfg') (hp : cfg.1.participants p = 2) :
    cfg'.1.participants p = 2
    ∨ (cfg'.1.participants p = 3
        ∧ ∃ id, op = SOp.respondToEnrollmentOp cfg.1.principalInvestigator p id true) := by
  cases op with
  | enrollOp sender id =>
    simp only [applyOp] at h
    unfold Stimulus.enroll at h
    split_ifs at h with hg
    · simp only [Option.map_some'] at h
      injection h with h
      subst h
      left
      have hps : p ≠ sender := fun he => hg (he ▸ hp)
      show Function.update cfg.1.participants sender 1 p = 2
      rw [Function.update_noteq hps]
      exact hp
    · exact Option.noConfusion h
  | submitOp sender ty id =>
    simp only [applyOp] at h
    unfold Stimulus.submit at h
    split_ifs at h with hg h1 h5
    · simp only [Option.map_some'] at h
      injection h with h
      subst h
      left
      exact hp
    · exact Option.noConfusion h
    · exact Option.noConfusion h
    · exact Option.noConfusion h
  | respondToEnrollmentOp sender cand id acc =>
    simp only [applyOp] at h
    unfold Stimulus.respondToEnrollment at h
    split_ifs at h with hpi hacc
    · rcases htf : Neuron.transferFrom cfg.2 cfg.1.self cfg.1.principalInvestigator cand
          (cfg.1.rewards 0) with _ | n1 <;> simp only [htf] at h
      · exact Option.noConfusion h
      · injection h with h
        subst h
        by_cases hpc : p = cand
        · subst hpc
          right
          refine ⟨?_, id, ?_⟩
          · show Function.update cfg.1.participants p 3 p = 3
            rw [Function.update_same]
          · rw [hpi, hacc]
        · left
          show Function.update cfg.1.participants cand 3 p = 2
          rw [Function.update_noteq hpc]
          exact hp
    · injection h with h
      subst h
      left
      show Function.update cfg.1.participants cand 2 p = 2
      rw [Function.update_apply]
      split_ifs with hc
      · rfl
      · exact hp
  | respondOp sender cand ty id acc =>
    simp only [applyOp] at h
    unfold Stimulus.respond at h
    split_ifs at h with hpi h1 h5 hacc
    · rcases htf : Neuron.transferFrom cfg.2 cfg.1.self cfg.1.principalInvestigator cand
          (cfg.1.rewards ⟨ty, h5⟩) with _ | n2 <;> simp only [htf] at h
      · exact Option.noConfusion h
      · injection h with h
        subst h
        left
        exact hp
    · injection h with h
      subst h
      left
      exact hp



/-- Witness for C2 (amended): after account 7 successfully enrolls, the
rejected account 9 is still Rejected or was PI-accepted (here: still 2). -/
theorem Stimulus.rejected_no_pending_step_witness :
    enrollStepResult.1.participants 9 = 2
    ∨ (enrollStepResult.1.participants 9 = 3
        ∧ ∃ id, SOp.enrollOp 7 1 =
            SOp.respondToEnrollmentOp sampleStimulus.principalInvestigator 9 id true) :=
  Stimulus.rejected_no_pending_step (sampleStimulus, sampleLedger) enrollStepResult
    (SOp.enrollOp 7 1) 9 rfl rfl

/-- C7: for well-formed ledgers, with the old ledger whitelisted on the new
one, the holder H (distinct from the new ledger's address) having a
sufficient balance on the old ledger and a sufficient allowance for the new
ledger there, a nonzero amount, and no supply overflow on the new ledger,
`N.reclaimBalanceFrom(O, H, a)` succeeds; the call moves `a` from H to N on
the old ledger, and mints `a` on the new ledger which ends up credited to H.
If any of the three sub-steps fails, the whole call returns `none`
(reverts), leaving both ledgers unchanged by the revert model. -/
theorem Neuron.reclaimBalanceFrom_spec (nL old : Neuron) (H : Addr) (a : Nat)
    (hinvO : old.SupplyInv) (htsO : old.totalSupply < U256)
    (hinvN : nL.SupplyInv) (htsN : nL.totalSupply < U256)
    (hne : H ≠ nL.self)
    (hw : nL.reclamationWhitelist old.self = true)
    (hbal : a ≤ Neuron.balanceOf old H)
    (hallow : a ≤ Neuron.allowance old H nL.self)
    (hpos : 0 < a)
    (hov : nL.totalSupply + a < U256) :
    ∃ nL1 old1, Neuron.reclaimBalanceFrom nL old H a = some (nL1, old1)
      ∧ Neuron.balanceOf old1 H + a = Neuron.balanceOf old H
      ∧ Neuron.balanceOf old1 nL.self = Neuron.balanceOf old nL.self + a
      ∧ nL1.totalSupply = nL.totalSupply + a
      ∧ Neuron.balanceOf nL1 H = Neuron.balanceOf nL H + a := by
  have ha : a < U256 := by omega
  -- step 1: pull a from H to the new ledger's address on the old ledger
  obtain ⟨old1, htf0⟩ :=
    Neuron.changeHands_isSome old nL.self H nL.self a hbal (Or.inr hallow)
  have htf : Neuron.transferFrom old nL.self H nL.self a = some old1 := htf0
  obtain ⟨_, _, _, _, _, _, _, _, _, _, hldiffO, _, _⟩ :=
    Neuron.changeHands_spec hinvO htsO htf0
  have hO1H : old1.ledger H = old.ledger H - a := by
    rw [hldiffO hne, Function.update_same]
  have hO1N : old1.ledger nL.self = old.ledger nL.self + a := by
    rw [hldiffO hne, Function.update_noteq (fun he => hne he.symm), Function.update_same]
  -- step 2: the new ledger mints a to itself
  obtain ⟨n1, hinc⟩ := Neuron.increaseSupply_isSome nL nL.self a (Or.inl rfl) hpos hov
  obtain ⟨_, _, _, hts1, hled1, hself1, _⟩ := Neuron.increaseSupply_spec htsN ha hinc
  have hl1 := hled1 hinvN
  have hinv1 : n1.Inv := Neuron.inv_increaseSupply ⟨hinvN, htsN⟩ ha hinc
  -- step 3: the new ledger forwards a to H
  have hbal1 : a ≤ n1.ledger nL.self := by
    rw [hl1, Function.update_same]
    omega
  obtain ⟨n2, htr0⟩ :=
    Neuron.changeHands_isSome n1 nL.self nL.self H a hbal1 (Or.inl rfl)
  have htr : Neuron.transfer n1 nL.self H a = some n2 := htr0
  obtain ⟨_, _, _, _, _, _, hts2, _, _, _, hldiff1, _, _⟩ :=
    Neuron.changeHands_spec hinv1.1 hinv1.2 htr0
  have hneS : nL.self ≠ H := fun he => hne he.symm
  have hN2H : n2.ledger H = nL.ledger H + a := by
    rw [hldiff1 hneS, Function.update_noteq hne, Function.update_same, hl1,
      Function.update_noteq hne]
  -- assemble the whole call
  refine ⟨n2, old1, ?_, ?_, ?_, ?_, ?_⟩
  · have hincS : Neuron.increaseSupply nL nL.self a = some n1 := hinc
    unfold Neuron.reclaimBalanceFrom
    rw [if_pos hw]
    simp only [htf, hincS, htr]
  · unfold Neuron.balanceOf
    rw [hO1H]
    omega
  · unfold Neuron.balanceOf
    rw [hO1N]
  · rw [hts2, hts1]
  · unfold Neuron.balanceOf
    rw [hN2H]



theorem sampleNewLedger_supplyInv : sampleNewLedger.SupplyInv := by
  refine ⟨{6}, ?_, ?_⟩
  · intro x hx
    have hx6 : x ≠ 6 := by simpa using hx
    simp [sampleNewLedger, Function.update_apply, hx6]
  · simp [sampleNewLedger, Function.update_apply]

/-- Witness for C7: account 1 reclaims its allowance-approved 25 from
`sampleLedger` into `sampleNewLedger`. -/
theorem Neuron.reclaimBalanceFrom_spec_witness :
    ∃ nL1 old1,
      Neuron.reclaimBalanceFrom sampleNewLedger sampleLedger 1 25 = some (nL1, old1)
      ∧ Neuron.balanceOf old1 1 + 25 = Neuron.balanceOf sampleLedger 1
      ∧ Neuron.balanceOf old1 sampleNewLedger.self
          = Neuron.balanceOf sampleLedger sampleNewLedger.self + 25
      ∧ nL1.totalSupply = sampleNewLedger.totalSupply + 25
      ∧ Neuron.balanceOf nL1 1 = Neuron.balanceOf sampleNewLedger 1 + 25 :=
  Neuron.reclaimBalanceFrom_spec sampleNewLedger sampleLedger 1 25
    sampleLedger_supplyInv (by norm_num [sampleLedger, U256])
    sampleNewLedger_supplyInv (by norm_num [sampleNewLedger, U256])
    (by norm_num [sampleNewLedger])
    rfl
    (by norm_num [sampleLedger, Neuron.balanceOf, Function.update_apply])
    (by norm_num [sampleLedger, sampleNewLedger, Neuron.allowance, update2_apply])
    (by norm_num)
    (by norm_num [sampleNewLedger, U256])
